import Mathlib

/-!
Verification of `lib/sqlalchemy/dialects/postgresql/ext.py`: a shallow
embedding of the PostgreSQL dialect extension constructs (aggregate_order_by,
ExcludeConstraint, the regconfig-aware text-search function family, and
DistinctOnClause) together with theorems about their construction and
attachment behaviour.
-/

/-- SQL type tags as used by the dialect module.  In the source, types are
instances with a `_type_affinity`; the embedding has no subtyping, so a type's
affinity is the tag itself. -/
inductive SqlType
  | regconfig
  | tsquery
  | tsvector
  | text
  | varchar
  | integer
  | nullType
  | other (s : String)
deriving DecidableEq, Repr, Inhabited

/-- A schema `Column` object: a name plus its SQL type. -/
structure Column where
  name : String
  ty : SqlType
deriving DecidableEq, Repr, Inhabited

/-- Clause-element tree nodes (`ColumnElement` subtree shapes used by ext.py):
column references, bind parameters produced by literal coercion (string and
numeric payloads), the `ClauseList` ordered list wrapper, generic function
nodes, and `text()` fragments. -/
inductive ClauseElem
  | column (name : String) (ty : SqlType)
  | bindS (s : String) (ty : SqlType)
  | bindN (n : Int) (ty : SqlType)
  | clauseList (elems : List ClauseElem)
  | func (fname : String) (args : List ClauseElem) (ty : SqlType)
  | sqltext (s : String)
deriving Inhabited

/-- Inferred type of a clause element (`.type` in the source); a `ClauseList`
and a text fragment have NULL type. -/
def ClauseElem.type : ClauseElem → SqlType
  | .column _ ty => ty
  | .bindS _ ty => ty
  | .bindN _ ty => ty
  | .clauseList _ => .nullType
  | .func _ _ ty => ty
  | .sqltext _ => .nullType

/-- Caller-supplied values before coercion: a schema `Column` object, an
already-built clause element, a plain Python string, or a plain number. -/
inductive Value
  | col (c : Column)
  | node (e : ClauseElem)
  | str (s : String)
  | num (n : Int)
deriving Inhabited

/-- Whether a raw value is a `ColumnElement` instance (schema columns are
column elements; plain strings and numbers are not), and if so its inferred
type.  Used by `ts_headline.__init__`'s `isinstance` + `_type_affinity`
check. -/
def Value.elemType : Value → Option SqlType
  | .col c => some c.ty
  | .node e => some e.type
  | .str _ => none
  | .num _ => none

/-- Modelled from the spec: `coercions.expect(roles.ExpressionElementRole, v,
type_=ot)` (the coercions module is not under src/).  An existing clause
element or column object passes through unchanged; a plain string or number is
wrapped as a bind parameter whose type is the explicit override when given,
otherwise the type inferred from the literal. -/
def expectExpr (ot : Option SqlType) : Value → ClauseElem
  | .col c => .column c.name c.ty
  | .node e => e
  | .str s => .bindS s (ot.getD .varchar)
  | .num n => .bindN n (ot.getD .integer)

/-- `aggregate_order_by` node: target expression, propagated type, and the
stored ORDER BY clause (a single element or a `ClauseList` wrapper). -/
structure AggregateOrderBy where
  target : ClauseElem
  type : SqlType
  order_by : ClauseElem

/-- `aggregate_order_by.__init__(target, *order_by)`: coerces the target under
expression role, takes its type, then branches on `len(order_by)`: zero raises
`TypeError`, one stores the single coerced element, more stores a `ClauseList`
of the coerced elements (the `ClauseList` constructor, not under src/, is
modelled from the spec as an ordered list wrapper coercing each element under
expression role). -/
def aggregate_order_by (target : Value) (order_by : List Value) :
    Except String AggregateOrderBy :=
  let t := expectExpr none target
  match order_by with
  | [] => .error "at least one ORDER BY element is required"
  | [x] => .ok ⟨t, t.type, expectExpr none x⟩
  | xs => .ok ⟨t, t.type, .clauseList (xs.map (expectExpr none))⟩

/-- **C1.** Constructing an `aggregate_order_by` with zero ORDER BY terms
always errors; with exactly one term the stored `order_by` is that single
coerced expression (not a freshly created list wrapper); with two or more
terms the stored `order_by` is a `ClauseList` whose children are exactly the
given terms, coerced, in the given order. -/
theorem aggregate_order_by_arity (target x y : Value) (rest : List Value) :
    (∃ msg, aggregate_order_by target [] = .error msg) ∧
    (∀ a, aggregate_order_by target [x] = .ok a →
      a.order_by = expectExpr none x) ∧
    (aggregate_order_by target [x]).isOk ∧
    (∀ a, aggregate_order_by target (x :: y :: rest) = .ok a →
      a.order_by = .clauseList ((x :: y :: rest).map (expectExpr none))) ∧
    (aggregate_order_by target (x :: y :: rest)).isOk := by
  refine ⟨⟨"at least one ORDER BY element is required", rfl⟩, ?_, ?_, ?_, ?_⟩
  · intro a h
    simp only [aggregate_order_by] at h
    cases h
    rfl
  · rfl
  · intro a h
    simp only [aggregate_order_by] at h
    cases h
    rfl
  · rfl

/-- Witness for `aggregate_order_by_arity` at a concrete call: one term keeps
the single coerced node, two terms produce the list wrapper. -/
theorem aggregate_order_by_arity_witness :
    (∃ msg, aggregate_order_by (.str "t") [] = .error msg) ∧
    AggregateOrderBy.order_by
        ⟨.bindS "t" .varchar, .varchar, .bindS "x" .varchar⟩ =
      expectExpr none (.str "x") ∧
    AggregateOrderBy.order_by
        ⟨.bindS "t" .varchar, .varchar,
          .clauseList [.bindS "x" .varchar, .bindS "y" .varchar]⟩ =
      .clauseList ([Value.str "x", Value.str "y"].map (expectExpr none)) := by
  obtain ⟨h1, h2, _, h4, _⟩ :=
    aggregate_order_by_arity (.str "t") (.str "x") (.str "y") []
  exact ⟨h1, h2 _ rfl, h4 _ rfl⟩

/-- `_regconfig_fn.__init__(*args)`: with more than one positional argument the
first is coerced under expression role with a `REGCONFIG` type override and the
rest under plain expression role; with at most one argument every argument is
coerced under plain expression role with no override. -/
def regconfigFnArgs (args : List Value) : List ClauseElem :=
  match args with
  | a0 :: a1 :: rest =>
      expectExpr (some .regconfig) a0 :: (a1 :: rest).map (expectExpr none)
  | _ => args.map (expectExpr none)

/-- `to_tsvector(*args)`: `_regconfig_fn` construction with TSVECTOR return
type. -/
def to_tsvector (args : List Value) : ClauseElem :=
  .func "to_tsvector" (regconfigFnArgs args) .tsvector

/-- `to_tsquery(*args)`: `_regconfig_fn` construction with TSQUERY return
type. -/
def to_tsquery (args : List Value) : ClauseElem :=
  .func "to_tsquery" (regconfigFnArgs args) .tsquery

/-- `plainto_tsquery(*args)`: `_regconfig_fn` construction with TSQUERY return
type. -/
def plainto_tsquery (args : List Value) : ClauseElem :=
  .func "plainto_tsquery" (regconfigFnArgs args) .tsquery

/-- `phraseto_tsquery(*args)`: `_regconfig_fn` construction with TSQUERY
return type. -/
def phraseto_tsquery (args : List Value) : ClauseElem :=
  .func "phraseto_tsquery" (regconfigFnArgs args) .tsquery

/-- `websearch_to_tsquery(*args)`: `_regconfig_fn` construction with TSQUERY
return type. -/
def websearch_to_tsquery (args : List Value) : ClauseElem :=
  .func "websearch_to_tsquery" (regconfigFnArgs args) .tsquery

/-- Argument list of a function node. -/
def ClauseElem.funcArgs : ClauseElem → List ClauseElem
  | .func _ args _ => args
  | _ => []

/-- **C6.** For the regconfig function family: with more than one positional
argument, argument 0 is coerced with the `REGCONFIG` type override and all
remaining arguments under plain expression role; with exactly one argument no
override is applied; and each of the five family members stores exactly these
coerced arguments. -/
theorem regconfig_fn_override (a0 a1 a : Value) (rest : List Value) :
    regconfigFnArgs (a0 :: a1 :: rest) =
      expectExpr (some .regconfig) a0 :: (a1 :: rest).map (expectExpr none) ∧
    regconfigFnArgs [a] = [expectExpr none a] ∧
    (to_tsvector [a]).funcArgs = [expectExpr none a] ∧
    (to_tsquery [a]).funcArgs = [expectExpr none a] ∧
    (plainto_tsquery [a]).funcArgs = [expectExpr none a] ∧
    (phraseto_tsquery [a]).funcArgs = [expectExpr none a] ∧
    (websearch_to_tsquery [a]).funcArgs = [expectExpr none a] ∧
    (to_tsvector (a0 :: a1 :: rest)).funcArgs =
      expectExpr (some .regconfig) a0 :: (a1 :: rest).map (expectExpr none) := by
  exact ⟨rfl, rfl, rfl, rfl, rfl, rfl, rfl, rfl⟩

/-- `ts_headline.__init__(*args)`: fewer than two arguments never applies the
configuration override; otherwise, when `args[1]` is a `ColumnElement` whose
type affinity is TSQUERY there is no configuration argument and no override is
applied; in every other case with at least two arguments, argument 0 is
coerced with the `REGCONFIG` type override and the rest plainly. -/
def ts_headline_args (args : List Value) : List ClauseElem :=
  match args with
  | a0 :: a1 :: rest =>
      if a1.elemType = some .tsquery then
        (a0 :: a1 :: rest).map (expectExpr none)
      else
        expectExpr (some .regconfig) a0 :: (a1 :: rest).map (expectExpr none)
  | _ => args.map (expectExpr none)

/-- `ts_headline(*args)`: function node with TEXT return type. -/
def ts_headline (args : List Value) : ClauseElem :=
  .func "ts_headline" (ts_headline_args args) .text

/-- **C5 (counterexample).** The claim says the override is skipped *exactly
when* exactly one argument would remain after removing a leading configuration
argument (i.e. two arguments in total) and the second argument is
text-search-query typed, so with three arguments it should always be applied.
But at `ts_headline(doc, tsquery_typed_column, options)` — three arguments,
second typed TSQUERY — the code skips the override: argument 0 stays a plain
varchar bind, not a REGCONFIG one. -/
theorem ts_headline_claim_counterexample :
    ts_headline_args
        [.str "the document", .col ⟨"q", .tsquery⟩, .str "StartSel=<b>"] =
      [.bindS "the document" .varchar, .column "q" .tsquery,
        .bindS "StartSel=<b>" .varchar] ∧
    ClauseElem.bindS "the document" .varchar ≠
      expectExpr (some .regconfig) (.str "the document") := by
  refine ⟨rfl, fun h => ?_⟩
  have := congrArg ClauseElem.type h
  simp [ClauseElem.type, expectExpr] at this

/-- **C5 (amended).** With at least two arguments the configuration-name type
override is skipped exactly when the second positional argument is a
`ColumnElement` whose inferred type is the text-search-query type — regardless
of how many arguments follow; otherwise the override is applied to argument 0;
with fewer than two arguments it is never applied. -/
theorem ts_headline_override (a0 a1 a : Value) (rest : List Value) :
    (a1.elemType = some .tsquery →
      ts_headline_args (a0 :: a1 :: rest) =
        (a0 :: a1 :: rest).map (expectExpr none)) ∧
    (a1.elemType ≠ some .tsquery →
      ts_headline_args (a0 :: a1 :: rest) =
        expectExpr (some .regconfig) a0 :: (a1 :: rest).map (expectExpr none)) ∧
    ts_headline_args [a] = [expectExpr none a] ∧
    ts_headline_args [] = [] ∧
    (ts_headline (a0 :: a1 :: rest)).funcArgs =
      ts_headline_args (a0 :: a1 :: rest) := by
  refine ⟨fun h => ?_, fun h => ?_, rfl, rfl, rfl⟩
  · simp [ts_headline_args, h]
  · simp [ts_headline_args, h]

/-- Witness for `ts_headline_override`: a TSQUERY-typed second argument skips
the override; a plain-string second argument gets it. -/
theorem ts_headline_override_witness :
    ts_headline_args [.str "d", .col ⟨"q", .tsquery⟩] =
      ([.str "d", .col ⟨"q", .tsquery⟩] : List Value).map (expectExpr none) ∧
    ts_headline_args [.str "english", .str "d"] =
      expectExpr (some .regconfig) (.str "english") ::
        ([.str "d"] : List Value).map (expectExpr none) := by
  constructor
  · exact (ts_headline_override (.str "d") (.col ⟨"q", .tsquery⟩)
      (.str "d") []).1 rfl
  · exact (ts_headline_override (.str "english") (.str "d")
      (.str "d") []).2.1 (by simp [Value.elemType])

/-- A render-list expression: still a bare Python string (unresolved column
name) or an actual clause element. -/
inductive RenderExpr
  | str (s : String)
  | node (e : ClauseElem)
deriving Inhabited

/-- One element of `coercions.expect_col_expression_collection(
roles.DDLConstraintColumnRole, ...)`: the 4-tuple
`(expr, column, strname, add_element)`. -/
structure DDLColCoerced where
  expr : RenderExpr
  column : Option Column
  strname : Option String
  add_element : Option Column
deriving Inhabited

/-- Modelled from the spec: the DDL-constraint-column coercion (the coercions
module is not under src/).  A schema `Column` yields its expression, itself as
the resolved column, and itself as the column to add to the constraint; an
expression element yields just the expression; a bare string is kept as a
string-like placeholder with its original string recorded; a plain number
cannot satisfy the role and raises a coercion error. -/
def ddlConstraintColumnExpect : Value → Except String DDLColCoerced
  | .col c => .ok ⟨.node (.column c.name c.ty), some c, none, some c⟩
  | .node e => .ok ⟨.node e, none, none, none⟩
  | .str s => .ok ⟨.str s, none, some s, none⟩
  | .num n =>
      .error ("could not coerce numeric literal " ++ toString n ++
        " to a DDL constraint column")

/-- The collection form of the coercion: coerce each value in order, failing
on the first value that cannot be coerced. -/
def expectColExpressionCollection : List Value → Except String (List DDLColCoerced)
  | [] => .ok []
  | v :: vs =>
      match ddlConstraintColumnExpect v with
      | .error e => .error e
      | .ok c =>
          match expectColExpressionCollection vs with
          | .error e => .error e
          | .ok cs => .ok (c :: cs)

/-- Modelled from the spec: `coercions.expect(roles.StatementOptionRole, w)`
for the WHERE modifier (the coercions module is not under src/).  An existing
element or column passes through; a literal SQL string becomes a text
fragment; a number cannot satisfy the role. -/
def statementOptionExpect : Value → Except String ClauseElem
  | .col c => .ok (.column c.name c.ty)
  | .node e => .ok e
  | .str s => .ok (.sqltext s)
  | .num n =>
      .error ("could not coerce numeric literal " ++ toString n ++
        " to a statement option")

/-- Python-dict assignment `m[k] = v` on an insertion-ordered association
list: overwrite in place when the key exists, else append. -/
def assocSet (m : List (String × String)) (k v : String) :
    List (String × String) :=
  if m.any (fun p => p.1 == k) then
    m.map (fun p => if p.1 == k then (k, v) else p)
  else m ++ [(k, v)]

/-- The name recorded for a render entry:
`column.name if column is not None else strname`. -/
def DDLColCoerced.entryName (c : DDLColCoerced) : Option String :=
  match c.column with
  | some col => some col.name
  | none => c.strname

/-- The `ExcludeConstraint` state: the column collection and modifiers stored
by `__init__` (via `ColumnCollectionConstraint.__init__`, modelled from the
spec as recording its columns, name, deferrable and initially), the ordered
render list of `(expr, name, operator)` triples, the parent table link set at
attachment, and the backend-dispatch registrations (`dispatch`). -/
structure ExcludeConstraint where
  columns : List Column
  operators : List (String × String)
  _render_exprs : List (RenderExpr × Option String × String)
  name : Option String
  deferrable : Option Bool
  initially : Option String
  using_ : String
  whereClause : Option ClauseElem
  ops : List (String × String)
  parent : Option String
  dispatch : List String
deriving Inhabited

/-- `ExcludeConstraint.__init__(*elements, **kw)`.  The first statement,
`expressions, operators = zip(*elements)`, raises a `ValueError` when
`elements` is empty (`zip()` yields nothing to unpack into two names).
Otherwise each expression is coerced under the DDL-constraint-column role;
genuine columns are appended to the column collection; each entry's name is
the resolved column's name or the original string; named entries update the
backwards-compat `operators` dict; the render list collects
`(expr, name, operator)` in input order.  Keyword modifiers: `using` defaults
to `"gist"`, `where` is coerced under the statement-option role, `ops`
defaults to empty. -/
def ExcludeConstraint.make (elems : List (Value × String))
    (name : Option String) (deferrable : Option Bool)
    (initially : Option String) (using_ : Option String)
    (whereArg : Option Value) (ops : Option (List (String × String))) :
    Except String ExcludeConstraint :=
  if elems.isEmpty then
    .error "not enough values to unpack (expected 2, got 0)"
  else
    match expectColExpressionCollection (elems.map (·.1)) with
    | .error e => .error e
    | .ok coerced =>
        let rows := coerced.zip (elems.map (·.2))
        let columns := rows.foldl (fun acc r =>
          match r.1.add_element with
          | some col => acc ++ [col]
          | none => acc) []
        let operators := rows.foldl (fun acc r =>
          match r.1.entryName with
          | some n => assocSet acc n r.2
          | none => acc) []
        let render_exprs := rows.map (fun r => (r.1.expr, r.1.entryName, r.2))
        match (match whereArg with
               | some w => (statementOptionExpect w).map some
               | none => .ok none : Except String (Option ClauseElem)) with
        | .error e => .error e
        | .ok wc =>
            .ok { columns := columns, operators := operators,
                  _render_exprs := render_exprs, name := name,
                  deferrable := deferrable, initially := initially,
                  using_ := using_.getD "gist", whereClause := wc,
                  ops := ops.getD [], parent := none, dispatch := [] }

/-- A parent table: its name, its column collection (`table.c`), and —
modelled from the spec — the registry of constraints already attached to it
(`table.constraints`, recorded here by constraint name). -/
structure Table where
  tname : String
  cols : List Column
  attachedConstraints : List (Option String)
deriving Inhabited

/-- `table.c[key]`: look a column up by name; a missing name raises the
collection's lookup error (`KeyError`). -/
def Table.colLookup (t : Table) (key : String) : Except String Column :=
  match t.cols.find? (fun c => c.name == key) with
  | some c => .ok c
  | none => .error ("KeyError: " ++ key)

/-- One step of the `_set_parent` list comprehension:
`expr if not isinstance(expr, str) else table.c[expr]` with the entry's name
and operator carried through unchanged. -/
def resolveEntry (t : Table) :
    RenderExpr × Option String × String →
      Except String (RenderExpr × Option String × String)
  | (.str s, n, op) =>
      match t.colLookup s with
      | .error e => .error e
      | .ok c => .ok (.node (.column c.name c.ty), n, op)
  | (.node e, n, op) => .ok (.node e, n, op)

/-- The whole list comprehension: resolve every entry, failing on the first
unresolvable string (the comprehension evaluates fully before the assignment,
so on failure the original list is kept). -/
def resolveRenderList (t : Table) :
    List (RenderExpr × Option String × String) →
      Except String (List (RenderExpr × Option String × String))
  | [] => .ok []
  | e :: es =>
      match resolveEntry t e with
      | .error msg => .error msg
      | .ok r =>
          match resolveRenderList t es with
          | .error msg => .error msg
          | .ok rs => .ok (r :: rs)

/-- `ExcludeConstraint._set_parent(table)`.  First `super()._set_parent(table)`
runs — modelled from the spec: the superclass links the constraint to its
parent table and records it in the table's constraint registry.  Then the
render list is rebuilt, resolving each bare-string entry through `table.c`.
The result is the raised-or-ok status together with the post-call state of the
constraint and the table: on a lookup failure the exception propagates after
the parent link and registration have already been made, and the render list
keeps its pre-call value. -/
def ExcludeConstraint._set_parent (c : ExcludeConstraint) (t : Table) :
    Except String Unit × ExcludeConstraint × Table :=
  let c1 : ExcludeConstraint := { c with parent := some t.tname }
  let t1 : Table :=
    { t with attachedConstraints := t.attachedConstraints ++ [c.name] }
  match resolveRenderList t c._render_exprs with
  | .ok rs => (.ok (), { c1 with _render_exprs := rs }, t1)
  | .error e => (.error e, c1, t1)

/-- Modelled from the spec: `schema._copy_expression(expr, source, target)`
(the schema module is not under src/) re-derives an expression for the target
table, replacing each column reference by the same-named column of the target
table and leaving other expressions unchanged. -/
def copyExpression (tgt : Table) : ClauseElem → ClauseElem
  | .column n ty =>
      match tgt.cols.find? (fun c => c.name == n) with
      | some c => .column c.name c.ty
      | none => .column n ty
  | e => e

/-- Re-derived value handed back to the constructor by `_copy`: a resolved
node expression is copied for the target table; a still-unresolved string is
passed through as the string. -/
def copyRenderValue (tgt : Table) : RenderExpr → Value
  | .node e => .node (copyExpression tgt e)
  | .str s => .str s

/-- `ExcludeConstraint._copy(target_table)`: rebuilds
`(copied expression, operator)` pairs from the render list, reconstructs a new
instance through the constructor passing `name`, `deferrable`, `initially`,
`where` and `using` (and no `ops`), then copies the backend-dispatch
registrations over with `c.dispatch._update(self.dispatch)`. -/
def ExcludeConstraint._copy (c : ExcludeConstraint) (tgt : Table) :
    Except String ExcludeConstraint :=
  let elems := c._render_exprs.map (fun r => (copyRenderValue tgt r.1, r.2.2))
  match ExcludeConstraint.make elems c.name c.deferrable c.initially
      (some c.using_) (c.whereClause.map Value.node) none with
  | .ok c2 => .ok { c2 with dispatch := c2.dispatch ++ c.dispatch }
  | .error e => .error e

/-- An element of a statement's `pre_columns` syntax-extension slot: either a
`DistinctOnClause` (carrying its target tuple) or some other clause element. -/
inductive PreColElem
  | distinctOn (targets : List ClauseElem)
  | otherElem (e : ClauseElem)
deriving Inhabited

/-- `isinstance(e, DistinctOnClause)`. -/
def PreColElem.isDOC : PreColElem → Bool
  | .distinctOn _ => true
  | .otherElem _ => false

/-- The `_distinct_on` targets of a slot element (empty for non-DistinctOn
elements). -/
def PreColElem.docTargets : PreColElem → List ClauseElem
  | .distinctOn ts => ts
  | .otherElem _ => []

/-- `DistinctOnClause.__init__(distinct_on)`: the immutable tuple of the
coerced targets (`coercions.expect(roles.ByOfRole, e)`, not under src/, is
modelled from the spec as expression coercion). -/
structure DistinctOnClause where
  _distinct_on : List ClauseElem

/-- `distinct_on(*expr)` / the `DistinctOnClause` constructor over raw
values. -/
def distinct_on (exprs : List Value) : DistinctOnClause :=
  ⟨exprs.map (expectExpr none)⟩

/-- A SELECT-like statement: the legacy `_distinct_on` shortcut contents, the
`_distinct` flag, and the `pre_columns` syntax-extension slot. -/
structure Select where
  _distinct_on : List ClauseElem
  _distinct : Bool
  pre_columns : List PreColElem
deriving Inhabited

/-- `DistinctOnClause._merge_other_distinct(existing)`: walk the current slot
contents, keeping non-DistinctOn elements in order in `res` while
concatenating every DistinctOn element's targets into `to_merge`; then append
one DistinctOnClause — the merged one if any targets were collected, otherwise
this clause itself. -/
def DistinctOnClause._merge_other_distinct (d : DistinctOnClause)
    (existing : List PreColElem) : List PreColElem :=
  let res := existing.filter (fun e => !e.isDOC)
  let to_merge := (existing.map PreColElem.docTargets).flatten
  if to_merge.isEmpty then res ++ [.distinctOn d._distinct_on]
  else res ++ [.distinctOn (to_merge ++ d._distinct_on)]

/-- `DistinctOnClause.apply_to_select(select_stmt)`: raise an
`InvalidRequestError` when the legacy `select.distinct(*cols)` shortcut has
populated `_distinct_on`; otherwise set the `_distinct` flag
(`select_stmt.distinct.non_generative(select_stmt)`) and update the
`pre_columns` extension slot through the merge callback
(`apply_syntax_extension_point`, not under src/, is modelled from the spec:
the slot's contents are replaced by the callback applied to them). -/
def DistinctOnClause.apply_to_select (d : DistinctOnClause) (s : Select) :
    Except String Select :=
  if !s._distinct_on.isEmpty then
    .error
      "Cannot mix ``select.ext(distinct_on(...))`` and ``select.distinct(...)``"
  else
    .ok { s with _distinct := true,
                 pre_columns := d._merge_other_distinct s.pre_columns }

/-- The collection coercion returns one coerced element per input value. -/
theorem expectColExpressionCollection_length (vs : List Value)
    (cs : List DDLColCoerced) (h : expectColExpressionCollection vs = .ok cs) :
    cs.length = vs.length := by
  induction vs generalizing cs with
  | nil =>
      simp only [expectColExpressionCollection] at h
      cases h
      rfl
  | cons v vs ih =>
      simp only [expectColExpressionCollection] at h
      cases hv : ddlConstraintColumnExpect v with
      | error e => rw [hv] at h; cases h
      | ok c =>
          rw [hv] at h
          cases hr : expectColExpressionCollection vs with
          | error e => rw [hr] at h; cases h
          | ok cs' =>
              rw [hr] at h
              cases h
              simp [ih cs' hr]

/-- Inversion of a successful `ExcludeConstraint.make` call: the input was
nonempty, the collection coercion succeeded, and every stored field is as the
constructor computes it. -/
theorem ExcludeConstraint.make_ok_spec (elems : List (Value × String))
    (name : Option String) (deferrable : Option Bool)
    (initially : Option String) (using_ : Option String)
    (whereArg : Option Value) (ops : Option (List (String × String)))
    (c : ExcludeConstraint)
    (h : ExcludeConstraint.make elems name deferrable initially using_
        whereArg ops = .ok c) :
    elems ≠ [] ∧
    ∃ coerced, expectColExpressionCollection (elems.map (·.1)) = .ok coerced ∧
      c._render_exprs = (coerced.zip (elems.map (·.2))).map
        (fun r => (r.1.expr, r.1.entryName, r.2)) ∧
      c.name = name ∧ c.deferrable = deferrable ∧ c.initially = initially ∧
      c.using_ = using_.getD "gist" ∧ c.ops = ops.getD [] ∧
      c.parent = none ∧ c.dispatch = [] ∧
      (∀ w, whereArg = some w →
        ∃ e, statementOptionExpect w = .ok e ∧ c.whereClause = some e) ∧
      (whereArg = none → c.whereClause = none) := by
  cases elems with
  | nil => simp [ExcludeConstraint.make] at h
  | cons p ps =>
      simp only [ExcludeConstraint.make, List.isEmpty_cons, if_neg] at h
      rw [if_neg (by simp)] at h
      cases hE : expectColExpressionCollection ((p :: ps).map (·.1)) with
      | error e => rw [hE] at h; cases h
      | ok coerced =>
          rw [hE] at h
          refine ⟨by simp, coerced, rfl, ?_⟩
          cases whereArg with
          | none =>
              simp only at h
              cases h
              refine ⟨rfl, rfl, rfl, rfl, rfl, rfl, rfl, rfl, ?_, ?_⟩
              · intro w hw; cases hw
              · intro _; rfl
          | some w =>
              simp only at h
              cases hW : statementOptionExpect w with
              | error e => rw [hW] at h; cases h
              | ok e =>
                  rw [hW] at h
                  simp only [Except.map] at h
                  cases h
                  refine ⟨rfl, rfl, rfl, rfl, rfl, rfl, rfl, rfl, ?_, ?_⟩
                  · intro w' hw'
                    cases hw'
                    exact ⟨e, hW, rfl⟩
                  · intro hn; cases hn

/-- **C4.** For every `ExcludeConstraint` successfully constructed from N
`(expression, operator)` pairs, the stored render list has length exactly N,
and for every index the entry's operator string equals the corresponding input
pair's operator, in construction order. -/
theorem exclude_positional_integrity (elems : List (Value × String))
    (name : Option String) (deferrable : Option Bool)
    (initially : Option String) (using_ : Option String)
    (whereArg : Option Value) (ops : Option (List (String × String)))
    (c : ExcludeConstraint)
    (h : ExcludeConstraint.make elems name deferrable initially using_
        whereArg ops = .ok c) :
    c._render_exprs.length = elems.length ∧
    ∀ i : Nat, (c._render_exprs[i]?).map (fun r => r.2.2) =
      (elems[i]?).map (fun p => p.2) := by
  obtain ⟨-, coerced, hE, hr, -⟩ :=
    ExcludeConstraint.make_ok_spec elems name deferrable initially using_
      whereArg ops c h
  have hlen : coerced.length = elems.length := by
    simpa using expectColExpressionCollection_length _ _ hE
  have hmap : c._render_exprs.map (fun r => r.2.2) =
      elems.map (fun p => p.2) := by
    rw [hr, List.map_map]
    exact List.map_snd_zip _ _ (by simp [hlen])
  refine ⟨?_, ?_⟩
  · rw [hr]
    simp [hlen]
  · intro i
    rw [← List.getElem?_map, hmap, List.getElem?_map]

/-- Witness for `exclude_positional_integrity` at the docstring's example
constraint: two pairs give a render list of length two with the operators
`&&` and `=` in order. -/
theorem exclude_positional_integrity_witness :
    ∃ c, ExcludeConstraint.make
        [(.col ⟨"period", .other "tsrange"⟩, "&&"),
         (.col ⟨"group", .varchar⟩, "=")]
        none none none none none none = .ok c ∧
      c._render_exprs.length = 2 ∧
      (c._render_exprs[0]?).map (fun r => r.2.2) = some "&&" ∧
      (c._render_exprs[1]?).map (fun r => r.2.2) = some "=" := by
  refine ⟨_, rfl, ?_⟩
  obtain ⟨h1, h2⟩ := exclude_positional_integrity
    [(.col ⟨"period", .other "tsrange"⟩, "&&"),
     (.col ⟨"group", .varchar⟩, "=")]
    none none none none none none _ rfl
  exact ⟨h1, h2 0, h2 1⟩

/-- **C7 (counterexample).** The claim says constructing an
`ExcludeConstraint` with zero pairs does not raise; but the constructor's
first statement, `expressions, operators = zip(*elements)`, has nothing to
unpack when `elements` is empty and raises a `ValueError`, so construction
with zero pairs never returns a constraint. -/
theorem exclude_zero_elements_counterexample :
    (ExcludeConstraint.make [] none none none none none none).isOk = false :=
  rfl

/-- **C7 (amended).** Constructing an `ExcludeConstraint` with zero
`(expression, operator)` pairs always raises (a `ValueError` from unpacking
`zip(*elements)` into two names), whatever the keyword modifiers; no
constraint with an empty render list is ever produced. -/
theorem exclude_zero_elements_raises (name : Option String)
    (deferrable : Option Bool) (initially : Option String)
    (using_ : Option String) (whereArg : Option Value)
    (ops : Option (List (String × String))) :
    ExcludeConstraint.make [] name deferrable initially using_ whereArg ops =
      .error "not enough values to unpack (expected 2, got 0)" :=
  rfl

/-- A constraint built (as in the class docstring, but with a bare string
column name) from the single pair `("x", "&&")`. -/
def pendingStrConstraint : ExcludeConstraint :=
  (ExcludeConstraint.make [(.str "x", "&&")]
      none none none none none none).toOption.getD default

/-- A table that carries a column named `x`. -/
def tableWithX : Table := ⟨"t_with_x", [⟨"x", .integer⟩], []⟩

/-- A table that carries no column named `x`. -/
def tableWithoutX : Table := ⟨"t_other", [⟨"y", .integer⟩], []⟩

/-- **C2 (counterexample).** Attaching the string-built constraint to a table
lacking the column fails with the lookup error — but the attachment is not
atomic: the parent link has already been set on the constraint and the
constraint has already been recorded on the table when the error propagates,
because `super()._set_parent(table)` runs before the render list is
resolved. -/
theorem exclude_attach_counterexample :
    (pendingStrConstraint._set_parent tableWithoutX).1 =
      .error "KeyError: x" ∧
    pendingStrConstraint.parent = none ∧
    (pendingStrConstraint._set_parent tableWithoutX).2.1.parent =
      some "t_other" ∧
    tableWithoutX.attachedConstraints = [] ∧
    (pendingStrConstraint._set_parent tableWithoutX).2.2.attachedConstraints =
      [none] := by
  exact ⟨rfl, rfl, rfl, rfl, rfl⟩

/-- **C2 (amended).** For a constraint built from a bare string column name:
the render entry keeps the string until attachment; attaching to a table
containing a column of that name succeeds and replaces the entry's expression
with that column object; attaching to a table lacking the name fails with the
lookup error, and on such failure the render list is left unchanged — but the
constraint's parent link and the table's constraint registry have already been
updated before the error propagates, so attachment is not atomic. -/
theorem exclude_deferred_resolution (s op : String) (c : ExcludeConstraint)
    (t : Table)
    (h : ExcludeConstraint.make [(.str s, op)]
        none none none none none none = .ok c) :
    c._render_exprs = [(.str s, some s, op)] ∧
    c.parent = none ∧
    (∀ col, t.colLookup s = .ok col →
      (c._set_parent t).1 = .ok () ∧
      ((c._set_parent t).2.1)._render_exprs =
        [(.node (.column col.name col.ty), some s, op)] ∧
      ((c._set_parent t).2.1).parent = some t.tname) ∧
    (∀ msg, t.colLookup s = .error msg →
      (c._set_parent t).1 = .error msg ∧
      ((c._set_parent t).2.1)._render_exprs = c._render_exprs ∧
      ((c._set_parent t).2.1).parent = some t.tname ∧
      ((c._set_parent t).2.2).attachedConstraints =
        t.attachedConstraints ++ [c.name]) := by
  have hc : c = (ExcludeConstraint.make [(.str s, op)]
      none none none none none none).toOption.getD default := by
    rw [h]; rfl
  simp only [ExcludeConstraint.make, expectColExpressionCollection,
    ddlConstraintColumnExpect, Except.toOption] at hc
  subst hc
  refine ⟨rfl, rfl, ?_, ?_⟩
  · intro col hcol
    simp [ExcludeConstraint._set_parent, resolveRenderList, resolveEntry,
      DDLColCoerced.entryName, hcol]
  · intro msg hmsg
    simp [ExcludeConstraint._set_parent, resolveRenderList, resolveEntry,
      DDLColCoerced.entryName, hmsg]

/-- Witness for `exclude_deferred_resolution`: the concrete pending
constraint, resolved against the table with column `x` and failing against
the table without it. -/
theorem exclude_deferred_resolution_witness :
    pendingStrConstraint._render_exprs = [(.str "x", some "x", "&&")] ∧
    (pendingStrConstraint._set_parent tableWithX).1 = .ok () ∧
    ((pendingStrConstraint._set_parent tableWithX).2.1)._render_exprs =
      [(.node (.column "x" .integer), some "x", "&&")] ∧
    (pendingStrConstraint._set_parent tableWithoutX).1 =
      .error "KeyError: x" := by
  obtain ⟨h1, -, h3, h4⟩ := exclude_deferred_resolution "x" "&&"
    pendingStrConstraint tableWithX rfl
  obtain ⟨-, -, -, h5⟩ := exclude_deferred_resolution "x" "&&"
    pendingStrConstraint tableWithoutX rfl
  refine ⟨h1, (h3 ⟨"x", .integer⟩ rfl).1, (h3 ⟨"x", .integer⟩ rfl).2.1,
    (h5 "KeyError: x" rfl).1⟩

/-- The resolution comprehension relates input and output entries pointwise:
names and operators are carried through unchanged and an entry that is
already a node keeps exactly that node. -/
theorem resolveRenderList_forall2 (t : Table)
    (es rs : List (RenderExpr × Option String × String))
    (h : resolveRenderList t es = .ok rs) :
    List.Forall₂ (fun a b : RenderExpr × Option String × String =>
      a.2.1 = b.2.1 ∧ a.2.2 = b.2.2 ∧
      ∀ e, a.1 = RenderExpr.node e → b.1 = RenderExpr.node e) es rs := by
  induction es generalizing rs with
  | nil =>
      simp only [resolveRenderList] at h
      cases h
      exact .nil
  | cons e es ih =>
      simp only [resolveRenderList] at h
      cases hre : resolveEntry t e with
      | error msg => rw [hre] at h; cases h
      | ok r =>
          rw [hre] at h
          cases hrs : resolveRenderList t es with
          | error msg => rw [hrs] at h; cases h
          | ok rs' =>
              rw [hrs] at h
              cases h
              refine .cons ?_ (ih rs' hrs)
              obtain ⟨ex, n, op⟩ := e
              cases ex with
              | str s =>
                  simp only [resolveEntry] at hre
                  cases hcl : t.colLookup s with
                  | error m => rw [hcl] at hre; cases hre
                  | ok col =>
                      rw [hcl] at hre
                      cases hre
                      exact ⟨rfl, rfl, fun e' he' => by cases he'⟩
              | node e' =>
                  simp only [resolveEntry] at hre
                  cases hre
                  exact ⟨rfl, rfl, fun _ hh => hh⟩

/-- **C9.** For every successful `ExcludeConstraint._set_parent`, the render
list's length and order are preserved, every entry's name and operator
components are unchanged, and every entry whose expression is already a node
keeps that same expression (only bare-string entries are modified). -/
theorem exclude_set_parent_frame (c c2 : ExcludeConstraint) (t t2 : Table)
    (h : c._set_parent t = (.ok (), c2, t2)) :
    c2._render_exprs.length = c._render_exprs.length ∧
    List.Forall₂ (fun a b : RenderExpr × Option String × String =>
      a.2.1 = b.2.1 ∧ a.2.2 = b.2.2 ∧
      ∀ e, a.1 = RenderExpr.node e → b.1 = RenderExpr.node e)
      c._render_exprs c2._render_exprs := by
  simp only [ExcludeConstraint._set_parent] at h
  cases hr : resolveRenderList t c._render_exprs with
  | error msg => rw [hr] at h; cases h
  | ok rs =>
      rw [hr] at h
      cases h
      have hf := resolveRenderList_forall2 t c._render_exprs rs hr
      exact ⟨(List.Forall₂.length_eq hf).symm, hf⟩

/-- Witness for `exclude_set_parent_frame`: attaching the concrete pending
constraint to the table carrying column `x` succeeds and the frame relation
holds between the one-entry render lists. -/
theorem exclude_set_parent_frame_witness :
    ((pendingStrConstraint._set_parent tableWithX).2.1)._render_exprs.length =
      pendingStrConstraint._render_exprs.length ∧
    List.Forall₂ (fun a b : RenderExpr × Option String × String =>
      a.2.1 = b.2.1 ∧ a.2.2 = b.2.2 ∧
      ∀ e, a.1 = RenderExpr.node e → b.1 = RenderExpr.node e)
      pendingStrConstraint._render_exprs
      ((pendingStrConstraint._set_parent tableWithX).2.1)._render_exprs :=
  exclude_set_parent_frame pendingStrConstraint
    (pendingStrConstraint._set_parent tableWithX).2.1 tableWithX
    (pendingStrConstraint._set_parent tableWithX).2.2 rfl

/-- The collection coercion succeeds exactly one element at a time: a
successful run relates each input value to its coerced 4-tuple pointwise. -/
theorem expectColExpressionCollection_forall2 (vs : List Value)
    (cs : List DDLColCoerced) (h : expectColExpressionCollection vs = .ok cs) :
    List.Forall₂ (fun v cc => ddlConstraintColumnExpect v = .ok cc) vs cs := by
  induction vs generalizing cs with
  | nil =>
      simp only [expectColExpressionCollection] at h
      cases h
      exact .nil
  | cons v vs ih =>
      simp only [expectColExpressionCollection] at h
      cases hv : ddlConstraintColumnExpect v with
      | error e => rw [hv] at h; cases h
      | ok cc =>
          rw [hv] at h
          cases hr : expectColExpressionCollection vs with
          | error e => rw [hr] at h; cases h
          | ok cs' =>
              rw [hr] at h
              cases h
              exact .cons hv (ih cs' hr)

/-- Pointwise shape of the render list `_copy`'s constructor call rebuilds:
entry `i` keeps entry `i`'s operator, a node expression becomes its
`copyExpression`-re-derivation for the target table, and a still-unresolved
string stays that string. -/
theorem copy_render_pointwise (tgt : Table)
    (rs : List (RenderExpr × Option String × String))
    (coerced : List DDLColCoerced)
    (hF : List.Forall₂ (fun v cc => ddlConstraintColumnExpect v = .ok cc)
      (rs.map (fun r => copyRenderValue tgt r.1)) coerced) :
    List.Forall₂ (fun a b : RenderExpr × Option String × String =>
      b.2.2 = a.2.2 ∧
      (∀ e, a.1 = RenderExpr.node e →
        b.1 = RenderExpr.node (copyExpression tgt e)) ∧
      (∀ s, a.1 = RenderExpr.str s → b.1 = RenderExpr.str s))
      rs ((coerced.zip (rs.map (fun r => r.2.2))).map
        (fun r => (r.1.expr, r.1.entryName, r.2))) := by
  induction rs generalizing coerced with
  | nil =>
      cases hF
      exact .nil
  | cons r rs ih =>
      obtain ⟨rexpr, rname, rop⟩ := r
      cases hF with
      | cons hv hrest =>
          refine .cons ?_ (ih _ hrest)
          cases rexpr with
          | node e =>
              simp only [copyRenderValue, ddlConstraintColumnExpect] at hv
              injection hv with hv
              subst hv
              exact ⟨rfl, (fun e' he' => by cases he'; rfl),
                (fun s hs => by cases hs)⟩
          | str s =>
              simp only [copyRenderValue, ddlConstraintColumnExpect] at hv
              injection hv with hv
              subst hv
              exact ⟨rfl, (fun e' he' => by cases he'),
                (fun s' hs' => by cases hs'; rfl)⟩

/-- **C8 (amended).** For every `_copy` that returns a constraint: the copy's
name, deferrable, initially, using and where modifiers equal the original's,
the backend-dispatch registrations are copied over, the copy is unattached,
and the render list keeps its length and order with each entry's operator
preserved and each node expression re-derived for the target table (a
still-unresolved string entry stays the string) — but the `ops` mapping is
NOT preserved: the constructor call inside `_copy` passes no `ops` keyword,
so the copy's `ops` is reset to the empty default. -/
theorem exclude_copy_modifiers (c c2 : ExcludeConstraint) (tgt : Table)
    (h : c._copy tgt = .ok c2) :
    c2.name = c.name ∧ c2.deferrable = c.deferrable ∧
    c2.initially = c.initially ∧ c2.using_ = c.using_ ∧
    c2.whereClause = c.whereClause ∧ c2.dispatch = c.dispatch ∧
    c2.ops = [] ∧ c2.parent = none ∧
    c2._render_exprs.length = c._render_exprs.length ∧
    List.Forall₂ (fun a b : RenderExpr × Option String × String =>
      b.2.2 = a.2.2 ∧
      (∀ e, a.1 = RenderExpr.node e →
        b.1 = RenderExpr.node (copyExpression tgt e)) ∧
      (∀ s, a.1 = RenderExpr.str s → b.1 = RenderExpr.str s))
      c._render_exprs c2._render_exprs := by
  simp only [ExcludeConstraint._copy] at h
  cases hm : ExcludeConstraint.make
      (c._render_exprs.map (fun r => (copyRenderValue tgt r.1, r.2.2)))
      c.name c.deferrable c.initially (some c.using_)
      (c.whereClause.map Value.node) none with
  | error e => rw [hm] at h; cases h
  | ok c2' =>
      rw [hm] at h
      cases h
      obtain ⟨-, coerced, hE, hr, hname, hdef, hinit, husing, hops, hpar,
        hdisp, hwsome, hwnone⟩ := ExcludeConstraint.make_ok_spec _ _ _ _ _ _ _ _ hm
      have hwc : c2'.whereClause = c.whereClause := by
        cases hw : c.whereClause with
        | none => exact hwnone (by rw [hw]; rfl)
        | some w =>
            obtain ⟨e, he, hce⟩ := hwsome (.node w) (by rw [hw]; rfl)
            cases he
            rw [hce]
      have hF : List.Forall₂ (fun v cc => ddlConstraintColumnExpect v = .ok cc)
          (c._render_exprs.map (fun r => copyRenderValue tgt r.1)) coerced := by
        have hF0 := expectColExpressionCollection_forall2 _ _ hE
        rw [List.map_map] at hF0
        exact hF0
      have hr2 : c2'._render_exprs =
          (coerced.zip (c._render_exprs.map (fun r => r.2.2))).map
            (fun r => (r.1.expr, r.1.entryName, r.2)) := by
        rw [hr, List.map_map]
        rfl
      have hpoint := copy_render_pointwise tgt c._render_exprs coerced hF
      rw [← hr2] at hpoint
      exact ⟨hname, hdef, hinit, husing, hwc, by rw [hdisp]; rfl, hops,
        hpar, (List.Forall₂.length_eq hpoint).symm, hpoint⟩

/-- A constraint with a nonempty `ops` mapping, as in the class docstring. -/
def opsConstraint : ExcludeConstraint :=
  (ExcludeConstraint.make [(.col ⟨"period", .other "tsrange"⟩, "&&")]
      none none none none none
      (some [("period", "my_opclass")])).toOption.getD default

/-- The table carrying the `period` column. -/
def periodTable : Table := ⟨"some_table", [⟨"period", .other "tsrange"⟩], []⟩

/-- `opsConstraint` after attachment to `periodTable`. -/
def attachedOpsConstraint : ExcludeConstraint :=
  (opsConstraint._set_parent periodTable).2.1

/-- The copy `_copy` produces from the attached constraint. -/
def copiedOpsConstraint : ExcludeConstraint :=
  (attachedOpsConstraint._copy periodTable).toOption.getD default

/-- **C8 (counterexample).** The attached constraint carries the ops mapping
`{"period": "my_opclass"}`, but its `_copy` — which succeeds — carries an
empty ops mapping: `_copy` does not pass `ops` to the constructor, so the
copy's modifiers are not all identical to the original's. -/
theorem exclude_copy_ops_counterexample :
    attachedOpsConstraint.parent = some "some_table" ∧
    attachedOpsConstraint.ops = [("period", "my_opclass")] ∧
    attachedOpsConstraint._copy periodTable = .ok copiedOpsConstraint ∧
    copiedOpsConstraint.ops = [] ∧
    copiedOpsConstraint.ops ≠ attachedOpsConstraint.ops := by
  refine ⟨rfl, rfl, rfl, rfl, ?_⟩
  intro hco
  have : ([] : List (String × String)) = [("period", "my_opclass")] := hco
  exact List.noConfusion this

/-- Witness for `exclude_copy_modifiers`: the concrete attached constraint
and its concrete copy. -/
theorem exclude_copy_modifiers_witness :
    copiedOpsConstraint.name = attachedOpsConstraint.name ∧
    copiedOpsConstraint.deferrable = attachedOpsConstraint.deferrable ∧
    copiedOpsConstraint.initially = attachedOpsConstraint.initially ∧
    copiedOpsConstraint.using_ = attachedOpsConstraint.using_ ∧
    copiedOpsConstraint.whereClause = attachedOpsConstraint.whereClause ∧
    copiedOpsConstraint.dispatch = attachedOpsConstraint.dispatch ∧
    copiedOpsConstraint.ops = [] ∧
    copiedOpsConstraint.parent = none ∧
    copiedOpsConstraint._render_exprs.length =
      attachedOpsConstraint._render_exprs.length ∧
    List.Forall₂ (fun a b : RenderExpr × Option String × String =>
      b.2.2 = a.2.2 ∧
      (∀ e, a.1 = RenderExpr.node e →
        b.1 = RenderExpr.node (copyExpression periodTable e)) ∧
      (∀ s, a.1 = RenderExpr.str s → b.1 = RenderExpr.str s))
      attachedOpsConstraint._render_exprs
      copiedOpsConstraint._render_exprs :=
  exclude_copy_modifiers attachedOpsConstraint copiedOpsConstraint
    periodTable rfl

/-- Shape of a slot of the form `kept non-DistinctOn elements ++ [one
DistinctOnClause]`: filtering keeps exactly the original non-DistinctOn
elements, there is exactly one DistinctOnClause, and it is last. -/
theorem merge_shape_helper (existing : List PreColElem) (ts : List ClauseElem) :
    ((existing.filter (fun e => !e.isDOC)) ++
        [PreColElem.distinctOn ts]).filter (fun e => !e.isDOC) =
      existing.filter (fun e => !e.isDOC) ∧
    (((existing.filter (fun e => !e.isDOC)) ++
        [PreColElem.distinctOn ts]).filter (fun e => e.isDOC)).length = 1 ∧
    ((existing.filter (fun e => !e.isDOC)) ++
        [PreColElem.distinctOn ts]).getLast? =
      some (PreColElem.distinctOn ts) := by
  refine ⟨?_, ?_, ?_⟩
  · rw [List.filter_append]
    simp [List.filter_filter, PreColElem.isDOC]
  · rw [List.filter_append]
    have h1 : (existing.filter (fun e => !e.isDOC)).filter
        (fun e => e.isDOC) = [] := by
      simp [List.filter_filter]
    simp [h1, PreColElem.isDOC]
  · exact List.getLast?_concat _

/-- **C10.** Every invocation of `_merge_other_distinct` preserves all
non-DistinctOnClause elements of the slot in their original relative order,
returns exactly one DistinctOnClause, and places that clause last. -/
theorem merge_other_distinct_slot (d : DistinctOnClause)
    (existing : List PreColElem) :
    (d._merge_other_distinct existing).filter (fun e => !e.isDOC) =
      existing.filter (fun e => !e.isDOC) ∧
    ((d._merge_other_distinct existing).filter (fun e => e.isDOC)).length
      = 1 ∧
    ∃ ts, (d._merge_other_distinct existing).getLast? =
      some (PreColElem.distinctOn ts) := by
  simp only [DistinctOnClause._merge_other_distinct]
  by_cases hm : ((existing.map PreColElem.docTargets).flatten).isEmpty = true
  · rw [if_pos hm]
    obtain ⟨h1, h2, h3⟩ := merge_shape_helper existing d._distinct_on
    exact ⟨h1, h2, d._distinct_on, h3⟩
  · rw [if_neg hm]
    obtain ⟨h1, h2, h3⟩ := merge_shape_helper existing
      ((existing.map PreColElem.docTargets).flatten ++ d._distinct_on)
    exact ⟨h1, h2, _, h3⟩

/-- Non-DistinctOn slot contents contribute no targets to the merge. -/
theorem docTargets_flatten_nil (l : List PreColElem)
    (h : ∀ e ∈ l, e.isDOC = false) :
    (l.map PreColElem.docTargets).flatten = [] := by
  induction l with
  | nil => rfl
  | cons e es ih =>
      have he := h e (by simp)
      have hd : e.docTargets = [] := by
        cases e with
        | distinctOn ts => simp [PreColElem.isDOC] at he
        | otherElem x => rfl
      simp [hd, ih (fun x hx => h x (by simp [hx]))]

/-- **C3.** On a statement whose legacy distinct-on shortcut is unset and
whose pre-columns slot holds no DistinctOnClause yet: applying a
DistinctOnClause with targets `[a]` and then one with targets `[b]` leaves
exactly one merged DistinctOnClause in the slot, placed after the untouched
other contents, with target tuple `[a, b]` — prior targets followed by new
ones; and applying any DistinctOnClause to a statement whose legacy
distinct-on-columns shortcut is set raises the conflict error. -/
theorem distinct_on_merge_and_conflict (s : Select) (a b : ClauseElem)
    (hleg : s._distinct_on = [])
    (hnod : ∀ e ∈ s.pre_columns, e.isDOC = false) :
    (∃ s1, DistinctOnClause.apply_to_select ⟨[a]⟩ s = .ok s1 ∧
      ∃ s2, DistinctOnClause.apply_to_select ⟨[b]⟩ s1 = .ok s2 ∧
        s2.pre_columns = s.pre_columns ++ [.distinctOn [a, b]] ∧
        (s2.pre_columns.filter (fun e => e.isDOC)).length = 1) ∧
    (∀ s' : Select, ∀ d : DistinctOnClause, s'._distinct_on ≠ [] →
      ∃ msg, d.apply_to_select s' = .error msg) := by
  have hfilter : s.pre_columns.filter (fun e => !e.isDOC) = s.pre_columns :=
    List.filter_eq_self.mpr (fun e he => by simp [hnod e he])
  have hflat : (s.pre_columns.map PreColElem.docTargets).flatten = [] :=
    docTargets_flatten_nil s.pre_columns hnod
  constructor
  · have h1 : DistinctOnClause.apply_to_select ⟨[a]⟩ s =
        .ok { s with
              _distinct := true,
              pre_columns := s.pre_columns ++ [.distinctOn [a]] } := by
      simp [DistinctOnClause.apply_to_select, hleg,
        DistinctOnClause._merge_other_distinct, hflat, hfilter]
    refine ⟨_, h1, ?_⟩
    have hfilter2 : (s.pre_columns ++
        [PreColElem.distinctOn [a]]).filter (fun e => !e.isDOC) =
        s.pre_columns := by
      rw [List.filter_append, hfilter]
      simp [PreColElem.isDOC]
    have hflat2 : ((s.pre_columns ++
        [PreColElem.distinctOn [a]]).map PreColElem.docTargets).flatten =
        [a] := by
      rw [List.map_append, List.flatten_append, hflat]
      rfl
    have h2 : DistinctOnClause.apply_to_select ⟨[b]⟩
        { s with
          _distinct := true,
          pre_columns := s.pre_columns ++ [.distinctOn [a]] } =
        .ok { s with
              _distinct := true,
              pre_columns := s.pre_columns ++ [.distinctOn [a, b]] } := by
      simp [DistinctOnClause.apply_to_select, hleg,
        DistinctOnClause._merge_other_distinct, hflat2, hfilter2]
      rw [hflat2]
      simp [hflat, PreColElem.docTargets]
    refine ⟨_, h2, rfl, ?_⟩
    have h0 : s.pre_columns.filter (fun e => e.isDOC) = [] := by
      rw [List.filter_eq_nil_iff]
      exact fun e he => by simp [hnod e he]
    rw [List.filter_append, h0]
    rfl
  · intro s' d hne
    have hie : s'._distinct_on.isEmpty = false := by
      cases h : s'._distinct_on with
      | nil => exact absurd h hne
      | cons x xs => rfl
    refine ⟨"Cannot mix ``select.ext(distinct_on(...))`` and ``select.distinct(...)``", ?_⟩
    simp [DistinctOnClause.apply_to_select, hie]

/-- Witness for `distinct_on_merge_and_conflict`: starting from an empty
fresh statement, applying targets `[a]` then `[b]` leaves the single merged
clause `[a, b]`; a statement with the legacy shortcut set errors. -/
theorem distinct_on_merge_and_conflict_witness :
    (∃ s1, DistinctOnClause.apply_to_select ⟨[.column "a" .integer]⟩
        ⟨[], false, []⟩ = .ok s1 ∧
      ∃ s2, DistinctOnClause.apply_to_select ⟨[.column "b" .integer]⟩ s1 =
          .ok s2 ∧
        s2.pre_columns = [] ++
          [.distinctOn [.column "a" .integer, .column "b" .integer]] ∧
        (s2.pre_columns.filter (fun e => e.isDOC)).length = 1) ∧
    (∃ msg, DistinctOnClause.apply_to_select ⟨[]⟩
        ⟨[.column "c" .integer], true, []⟩ = .error msg) := by
  obtain ⟨h1, h2⟩ := distinct_on_merge_and_conflict ⟨[], false, []⟩
    (.column "a" .integer) (.column "b" .integer) rfl (by intro e he; cases he)
  exact ⟨h1, h2 ⟨[.column "c" .integer], true, []⟩ ⟨[]⟩ (by simp)⟩
